import Mathlib

/-!
# Verification of the in-memory translation cache (`CacheService`)

A shallow embedding of `src/backend/app/services/cache_service.py`.

The Python `dict` backing the cache is modelled as an association list that
preserves Python `dict` semantics: insertion order is kept, overwriting an
existing key keeps its position, a new key is appended at the end, and
deletion removes the entry.  Wall-clock time (`datetime.utcnow()`) is passed
explicitly to each operation as an integer timestamp; `timedelta(seconds=ttl)`
becomes integer addition.  Floating point statistics (`hit_rate`, the memory
estimate) are modelled with exact rationals.
-/

namespace CachePy

/-- Python-dict lookup: first binding of `k` (keys are unique in every
reachable state, so "first" is "the" binding). Models `self.cache[key]` /
`key in self.cache`. -/
def dlookup (k : String) : List (String × β) → Option β
  | [] => none
  | (k', v) :: rest => if k' = k then some v else dlookup k rest

/-- Python-dict assignment `d[k] = v`: overwrite in place if the key exists,
otherwise append at the end (Python dicts preserve insertion order). -/
def dinsert (k : String) (v : β) : List (String × β) → List (String × β)
  | [] => [(k, v)]
  | (k', v') :: rest => if k' = k then (k, v) :: rest else (k', v') :: dinsert k v rest

/-- Python-dict deletion `del d[k]`: removes the binding of `k`. -/
def derase (k : String) : List (String × β) → List (String × β)
  | [] => []
  | (k', v') :: rest => if k' = k then rest else (k', v') :: derase k rest

/-- One cache entry, the dict literal built by `CacheService.set`
(`{"value": ..., "created_at": ..., "last_accessed": ..., "expires_at": ...}`). -/
structure Entry (α : Type) where
  value : α
  created_at : Int
  last_accessed : Int
  expires_at : Int
deriving DecidableEq, Repr

/-- The `self.stats` dict: `{"hits": 0, "misses": 0, "size": 0, "evictions": 0}`. -/
structure Stats where
  hits : Nat
  misses : Nat
  size : Nat
  evictions : Nat
deriving DecidableEq, Repr

/-- State of a `CacheService` object: constructor arguments plus the mutable
`self.cache` and `self.stats`. -/
structure CacheService (α : Type) where
  max_size : Int
  ttl_seconds : Int
  cache : List (String × Entry α)
  stats : Stats
deriving DecidableEq, Repr

/-- `CacheService.__init__(max_size, ttl_seconds)`: stores the configuration
and starts from an empty cache and zeroed counters.  The constructor body
performs no validation and contains no `raise` statement. -/
def CacheService.init (α : Type) (max_size ttl_seconds : Int) : CacheService α :=
  { max_size := max_size
    ttl_seconds := ttl_seconds
    cache := []
    stats := { hits := 0, misses := 0, size := 0, evictions := 0 } }

/-- The constructor as a fallible call: the body of `__init__` has no
validation and no `raise` path, so its `Except`-typed embedding always
returns `ok` (for any `max_size`/`ttl_seconds`, negative values included). -/
def CacheService.mkCacheService (α : Type) (max_size ttl_seconds : Int) :
    Except String (CacheService α) :=
  Except.ok (CacheService.init α max_size ttl_seconds)

/-- `CacheService._is_expired(item)`: `datetime.utcnow() > item["expires_at"]`. -/
def CacheService.is_expired (now : Int) (item : Entry α) : Bool :=
  now > item.expires_at

/-- The `min(self.cache.keys(), key=lambda k: last_accessed)` computation of
`_evict_lru`: Python's `min` returns the first element in iteration order
attaining the minimum, hence the fold replaces the current best only on a
strictly smaller value. -/
def lruMin (p0 : String × Entry α) (rest : List (String × Entry α)) : String × Entry α :=
  rest.foldl (fun best p => if p.2.last_accessed < best.2.last_accessed then p else best) p0

/-- `CacheService._evict_lru()` proper: delete the found key, bump
`evictions`, refresh `size`; a no-op on an empty cache. -/
def CacheService.evict_lru (s : CacheService α) : CacheService α :=
  match s.cache with
  | [] => s
  | p0 :: rest =>
    let lru_key := (lruMin p0 rest).1
    let cache' := derase lru_key s.cache
    { s with cache := cache'
             stats := { s.stats with evictions := s.stats.evictions + 1, size := cache'.length } }

/-- `CacheService.get(key)`: miss on absent key; lazy-expire (delete, refresh
`size`, count a miss) when `now` is past `expires_at`; otherwise refresh
`last_accessed`, count a hit, and return the stored value. -/
def CacheService.get (s : CacheService α) (now : Int) (key : String) :
    Option α × CacheService α :=
  match dlookup key s.cache with
  | none => (none, { s with stats := { s.stats with misses := s.stats.misses + 1 } })
  | some item =>
    if CacheService.is_expired now item then
      let cache' := derase key s.cache
      (none,
       { s with cache := cache'
                stats := { s.stats with size := cache'.length, misses := s.stats.misses + 1 } })
    else
      (some item.value,
       { s with cache := dinsert key { item with last_accessed := now } s.cache
                stats := { s.stats with hits := s.stats.hits + 1 } })

/-- `CacheService.set(key, value)`: evict the LRU entry first when the cache
is full and the key is new, then insert the entry with `created_at = now`,
`last_accessed = now`, `expires_at = now + ttl_seconds`, and refresh `size`.
The method takes no per-call TTL: it always uses the configured
`self.ttl_seconds`. -/
def CacheService.set (s : CacheService α) (now : Int) (key : String) (value : α) :
    CacheService α :=
  let s1 :=
    if s.max_size ≤ (s.cache.length : Int) ∧ (dlookup key s.cache).isNone = true then
      s.evict_lru
    else s
  let cache' := dinsert key
    { value := value, created_at := now, last_accessed := now,
      expires_at := now + s1.ttl_seconds } s1.cache
  { s1 with cache := cache', stats := { s1.stats with size := cache'.length } }

/-- Definition following the specification's words for
`set(key, value, ttl = default) -> void` — overwrite in place when present,
otherwise evict the LRU entry when full, and insert with
`expires_at = now + ttl` where `ttl` is a **per-call** argument.  This is the
spec side of the refinement comparison for the `set` contract; the source's
`CacheService.set` above takes no per-call TTL. -/
def set_spec (s : CacheService α) (now : Int) (key : String) (value : α) (ttl : Int) :
    CacheService α :=
  let s1 :=
    if s.max_size ≤ (s.cache.length : Int) ∧ (dlookup key s.cache).isNone = true then
      s.evict_lru
    else s
  let cache' := dinsert key
    { value := value, created_at := now, last_accessed := now,
      expires_at := now + ttl } s1.cache
  { s1 with cache := cache', stats := { s1.stats with size := cache'.length } }

/-- `CacheService.delete(key)`: remove if present (refreshing `size`) and
report whether a removal happened. -/
def CacheService.delete (s : CacheService α) (key : String) : Bool × CacheService α :=
  if (dlookup key s.cache).isSome then
    let cache' := derase key s.cache
    (true, { s with cache := cache', stats := { s.stats with size := cache'.length } })
  else
    (false, s)

/-- `CacheService.clear()`: drop all entries and set the `size` counter to 0;
the other counters are untouched. -/
def CacheService.clear (s : CacheService α) : CacheService α :=
  { s with cache := [], stats := { s.stats with size := 0 } }

/-- `CacheService._estimate_memory_usage()`: 0.0 on an empty cache, otherwise
1KB per entry converted to MB (float arithmetic modelled exactly in ℚ). -/
def CacheService.estimate_memory_usage (s : CacheService α) : Rat :=
  if s.cache.isEmpty then 0
  else ((s.cache.length : Rat) * 1024) / (1024 * 1024)

/-- The dict returned by `CacheService.get_stats()`. -/
structure StatsSnapshot where
  enabled : Bool
  size : Nat
  max_size : Int
  hits : Nat
  misses : Nat
  hit_rate : Rat
  evictions : Nat
  ttl_seconds : Int
  memory_usage_estimate_mb : Rat
deriving DecidableEq, Repr

/-- `CacheService.get_stats()`: snapshot of the counters, with
`hit_rate = hits / (hits + misses)` when there was at least one request and
the integer `0` otherwise. -/
def CacheService.get_stats (s : CacheService α) : StatsSnapshot :=
  let total_requests := s.stats.hits + s.stats.misses
  let hit_rate : Rat :=
    if total_requests > 0 then (s.stats.hits : Rat) / (total_requests : Rat) else 0
  { enabled := true
    size := s.stats.size
    max_size := s.max_size
    hits := s.stats.hits
    misses := s.stats.misses
    hit_rate := hit_rate
    evictions := s.stats.evictions
    ttl_seconds := s.ttl_seconds
    memory_usage_estimate_mb := s.estimate_memory_usage }

/-- The string `f80 = f"{text}|{source_lang}|{target_lang}|{model}"` that
`generate_cache_key` feeds to `hashlib.md5`. -/
def key_data (text source_lang target_lang model : String) : String :=
  text ++ "|" ++ source_lang ++ "|" ++ target_lang ++ "|" ++ model

/-- `CacheService.generate_cache_key`: the hex digest of `key_data`.  The
MD5 digest itself is an opaque parameter `md5_hex`; every claim about key
distinctness factors through equality of `key_data` (equal inputs to the
digest give equal keys). -/
def generate_cache_key (md5_hex : String → String)
    (text source_lang target_lang model : String) : String :=
  md5_hex (key_data text source_lang target_lang model)

/-- The body of one sweep cycle of `CacheService._cleanup_expired_items`
(the code inside the `try:` after the sleep): collect the keys whose
`expires_at` lies strictly in the past, delete them, and refresh the `size`
counter when anything was removed. -/
def sweepCycle (now : Int) (s : CacheService α) : CacheService α :=
  let expired_keys := (s.cache.filter (fun p => now > p.2.expires_at)).map Prod.fst
  let cache' := expired_keys.foldl (fun c k => derase k c) s.cache
  if expired_keys.isEmpty then { s with cache := cache' }
  else { s with cache := cache', stats := { s.stats with size := cache'.length } }

/-- The `while True: try: ... except Exception: log` skeleton of
`_cleanup_expired_items`, run for a finite prefix of tick times.  The cycle
body is a parameter that may fail (`Except`), standing for any exception an
actual cycle might raise; an `error` outcome is caught — the state the failed
cycle left behind is kept and the loop goes on.  The second component counts
the cycles that were started: it grows by one per tick unconditionally,
mirroring `while True`.  Instantiating the cycle with
`fun t st => Except.ok (sweepCycle t st)` gives the sweeper as written. -/
def runSweeper (cycle : Int → CacheService α → Except String (CacheService α)) :
    List Int → CacheService α × Nat → CacheService α × Nat
  | [], acc => acc
  | t :: ts, (s, n) =>
    match cycle t s with
    | Except.ok s' => runSweeper cycle ts (s', n + 1)
    | Except.error _ => runSweeper cycle ts (s, n + 1)

/-- One public operation on the cache, for stating invariants over arbitrary
call sequences. -/
inductive Op (α : Type) where
  | get (now : Int) (key : String)
  | set (now : Int) (key : String) (value : α)
  | delete (key : String)
  | clear
deriving DecidableEq

/-- Apply one public operation (discarding the returned value). -/
def applyOp (s : CacheService α) : Op α → CacheService α
  | Op.get now key => (s.get now key).2
  | Op.set now key value => s.set now key value
  | Op.delete key => (s.delete key).2
  | Op.clear => s.clear

/-- Run a sequence of public operations left to right. -/
def runOps (s : CacheService α) : List (Op α) → CacheService α
  | [] => s
  | op :: ops => runOps (applyOp s op) ops

/-! ## Association-list lemmas (Python-dict semantics) -/

theorem dlookup_dinsert_self (k : String) (v : β) (l : List (String × β)) :
    dlookup k (dinsert k v l) = some v := by
  induction l with
  | nil => simp [dinsert, dlookup]
  | cons p rest ih =>
    by_cases h : p.1 = k
    · simp [dinsert, dlookup, h]
    · simp [dinsert, dlookup, h, ih]

theorem dlookup_dinsert_ne (k' k : String) (v : β) (l : List (String × β)) (h : k' ≠ k) :
    dlookup k' (dinsert k v l) = dlookup k' l := by
  induction l with
  | nil => simp [dinsert, dlookup, Ne.symm h]
  | cons p rest ih =>
    by_cases hp : p.1 = k
    · simp [dinsert, dlookup, hp, Ne.symm h]
    · simp [dinsert, dlookup, hp, ih]

theorem length_dinsert_isSome (k : String) (v : β) (l : List (String × β))
    (h : (dlookup k l).isSome) : (dinsert k v l).length = l.length := by
  induction l with
  | nil => simp [dlookup] at h
  | cons p rest ih =>
    by_cases hp : p.1 = k
    · simp [dinsert, hp]
    · simp only [dlookup, hp, if_false] at h
      simp [dinsert, hp, ih h]

theorem length_dinsert_none (k : String) (v : β) (l : List (String × β))
    (h : dlookup k l = none) : (dinsert k v l).length = l.length + 1 := by
  induction l with
  | nil => simp [dinsert]
  | cons p rest ih =>
    by_cases hp : p.1 = k
    · simp [dlookup, hp] at h
    · simp only [dlookup, hp, if_false] at h
      simp [dinsert, hp, ih h]

theorem length_derase_isSome (k : String) (l : List (String × β))
    (h : (dlookup k l).isSome) : (derase k l).length + 1 = l.length := by
  induction l with
  | nil => simp [dlookup] at h
  | cons p rest ih =>
    by_cases hp : p.1 = k
    · simp [derase, hp]
    · simp only [dlookup, hp, if_false] at h
      simp [derase, hp, ih h]

theorem dlookup_derase_ne (k' k : String) (l : List (String × β)) (h : k' ≠ k) :
    dlookup k' (derase k l) = dlookup k' l := by
  induction l with
  | nil => simp [derase]
  | cons p rest ih =>
    by_cases hp : p.1 = k
    · simp [derase, dlookup, hp, Ne.symm h]
    · simp [derase, dlookup, hp, ih]

theorem dlookup_none_derase (k k' : String) (l : List (String × β))
    (h : dlookup k l = none) : dlookup k (derase k' l) = none := by
  induction l with
  | nil => simp [derase, dlookup]
  | cons p rest ih =>
    by_cases hp : p.1 = k
    · simp [dlookup, hp] at h
    · simp only [dlookup, hp, if_false] at h
      by_cases hp' : p.1 = k'
      · simpa [derase, hp'] using h
      · simp [derase, dlookup, hp, hp', ih h]

theorem dlookup_none_iff (k : String) (l : List (String × β)) :
    dlookup k l = none ↔ k ∉ l.map Prod.fst := by
  induction l with
  | nil => simp [dlookup]
  | cons p rest ih =>
    by_cases hp : p.1 = k
    · simp [dlookup, hp]
    · simp only [dlookup, hp, if_false, List.map_cons, List.mem_cons, not_or]
      rw [ih]
      exact ⟨fun h => ⟨fun h1 => hp h1.symm, h⟩, fun h => h.2⟩

theorem dlookup_derase_self (k : String) (l : List (String × β))
    (h : (l.map Prod.fst).Nodup) : dlookup k (derase k l) = none := by
  induction l with
  | nil => simp [derase, dlookup]
  | cons p rest ih =>
    simp only [List.map_cons, List.nodup_cons] at h
    by_cases hp : p.1 = k
    · subst hp
      simpa [derase, dlookup_none_iff] using h.1
    · simp [derase, dlookup, hp, ih h.2]

theorem mem_dlookup_isSome (k : String) (v : β) (l : List (String × β))
    (h : (k, v) ∈ l) : (dlookup k l).isSome := by
  induction l with
  | nil => simp at h
  | cons p rest ih =>
    by_cases hp : p.1 = k
    · simp [dlookup, hp]
    · rcases List.mem_cons.mp h with h1 | h1
      · exact absurd (congrArg Prod.fst h1.symm) hp
      · simp [dlookup, hp, ih h1]

theorem keys_derase_sublist (k : String) (l : List (String × β)) :
    ((derase k l).map Prod.fst).Sublist (l.map Prod.fst) := by
  induction l with
  | nil => simp [derase]
  | cons p rest ih =>
    by_cases hp : p.1 = k
    · simp only [derase, hp, if_true, List.map_cons]
      exact List.sublist_cons_self _ _
    · simpa [derase, hp] using ih.cons₂ p.1

theorem nodup_keys_derase (k : String) (l : List (String × β))
    (h : (l.map Prod.fst).Nodup) : ((derase k l).map Prod.fst).Nodup :=
  (keys_derase_sublist k l).nodup h

theorem keys_dinsert_isSome (k : String) (v : β) (l : List (String × β))
    (h : (dlookup k l).isSome) : (dinsert k v l).map Prod.fst = l.map Prod.fst := by
  induction l with
  | nil => simp [dlookup] at h
  | cons p rest ih =>
    by_cases hp : p.1 = k
    · simp [dinsert, hp]
    · simp only [dlookup, hp, if_false] at h
      simp [dinsert, hp, ih h]

theorem keys_dinsert_none (k : String) (v : β) (l : List (String × β))
    (h : dlookup k l = none) : (dinsert k v l).map Prod.fst = l.map Prod.fst ++ [k] := by
  induction l with
  | nil => simp [dinsert]
  | cons p rest ih =>
    by_cases hp : p.1 = k
    · simp [dlookup, hp] at h
    · simp only [dlookup, hp, if_false] at h
      simp [dinsert, hp, ih h]

theorem nodup_keys_dinsert (k : String) (v : β) (l : List (String × β))
    (h : (l.map Prod.fst).Nodup) : ((dinsert k v l).map Prod.fst).Nodup := by
  rcases ho : dlookup k l with _ | w
  · rw [keys_dinsert_none k v l ho]
    refine List.Nodup.append h (List.nodup_singleton k) ?_
    intro a ha hb
    rw [List.mem_singleton] at hb
    exact (dlookup_none_iff k l).mp ho (hb ▸ ha)
  · rw [keys_dinsert_isSome k v l (by simp [ho])]
    exact h

/-! ## LRU argmin lemmas -/

theorem lruMin_cons (p0 q : String × Entry α) (rest : List (String × Entry α)) :
    lruMin p0 (q :: rest) =
      if q.2.last_accessed < p0.2.last_accessed then lruMin q rest else lruMin p0 rest := by
  by_cases hq : q.2.last_accessed < p0.2.last_accessed
  · simp [lruMin, hq]
  · simp [lruMin, hq]

theorem lruMin_mem (p0 : String × Entry α) (rest : List (String × Entry α)) :
    lruMin p0 rest ∈ p0 :: rest := by
  induction rest generalizing p0 with
  | nil => simp [lruMin]
  | cons q rest ih =>
    rw [lruMin_cons]
    by_cases hq : q.2.last_accessed < p0.2.last_accessed
    · rw [if_pos hq]
      rcases List.mem_cons.mp (ih q) with h | h
      · simp [h]
      · simp [List.mem_cons, h]
    · rw [if_neg hq]
      rcases List.mem_cons.mp (ih p0) with h | h
      · simp [h]
      · simp [List.mem_cons, h]

theorem lruMin_le (p0 : String × Entry α) (rest : List (String × Entry α)) :
    ∀ q ∈ p0 :: rest, (lruMin p0 rest).2.last_accessed ≤ q.2.last_accessed := by
  induction rest generalizing p0 with
  | nil =>
    intro q hq
    rcases List.mem_cons.mp hq with h | h
    · subst h; simp [lruMin]
    · simp at h
  | cons r rest ih =>
    intro q hq
    rw [lruMin_cons]
    by_cases hr : r.2.last_accessed < p0.2.last_accessed
    · rw [if_pos hr]
      rcases List.mem_cons.mp hq with h | h
      · subst h
        exact le_of_lt (lt_of_le_of_lt (ih r r (List.mem_cons_self r rest)) hr)
      · rcases List.mem_cons.mp h with h1 | h1
        · rw [h1]; exact ih r r (List.mem_cons_self r rest)
        · exact ih r q (List.mem_cons_of_mem r h1)
    · rw [if_neg hr]
      rcases List.mem_cons.mp hq with h | h
      · rw [h]; exact ih p0 p0 (List.mem_cons_self p0 rest)
      · rcases List.mem_cons.mp h with h1 | h1
        · subst h1
          exact le_trans (ih p0 p0 (List.mem_cons_self p0 rest)) (not_lt.mp hr)
        · exact ih p0 q (List.mem_cons_of_mem p0 h1)

/-! ## Per-operation facts -/

theorem evict_lru_max_size (s : CacheService α) : s.evict_lru.max_size = s.max_size := by
  rcases h : s.cache with _ | ⟨p0, rest⟩ <;> simp [CacheService.evict_lru, h]

theorem evict_lru_ttl (s : CacheService α) : s.evict_lru.ttl_seconds = s.ttl_seconds := by
  rcases h : s.cache with _ | ⟨p0, rest⟩ <;> simp [CacheService.evict_lru, h]

theorem evict_lru_length (s : CacheService α) (hne : s.cache ≠ []) :
    s.evict_lru.cache.length + 1 = s.cache.length := by
  rcases h : s.cache with _ | ⟨p0, rest⟩
  · exact absurd h hne
  · have hmem : lruMin p0 rest ∈ p0 :: rest := lruMin_mem p0 rest
    have hsome : (dlookup (lruMin p0 rest).1 (p0 :: rest)).isSome :=
      mem_dlookup_isSome (lruMin p0 rest).1 (lruMin p0 rest).2 (p0 :: rest) (by simpa using hmem)
    simpa [CacheService.evict_lru, h] using length_derase_isSome _ _ hsome

theorem evict_lru_none (s : CacheService α) (key : String)
    (h : dlookup key s.cache = none) : dlookup key s.evict_lru.cache = none := by
  rcases hc : s.cache with _ | ⟨p0, rest⟩
  · rw [hc] at h
    simp [CacheService.evict_lru, hc, h]
  · rw [hc] at h
    simpa [CacheService.evict_lru, hc] using dlookup_none_derase key _ (p0 :: rest) h

theorem set_max_size (s : CacheService α) (now : Int) (key : String) (v : α) :
    (s.set now key v).max_size = s.max_size := by
  by_cases hc : s.max_size ≤ (s.cache.length : Int) ∧ (dlookup key s.cache).isNone = true
  · simp only [CacheService.set]
    rw [if_pos hc]
    exact evict_lru_max_size s
  · simp only [CacheService.set]
    rw [if_neg hc]

theorem set_capacity (s : CacheService α) (now : Int) (key : String) (v : α)
    (hpos : 1 ≤ s.max_size) (hlen : (s.cache.length : Int) ≤ s.max_size) :
    ((s.set now key v).cache.length : Int) ≤ s.max_size := by
  by_cases hc : s.max_size ≤ (s.cache.length : Int) ∧ (dlookup key s.cache).isNone = true
  · -- cache full and key absent: one eviction, then an append
    have hnone : dlookup key s.cache = none := Option.isNone_iff_eq_none.mp hc.2
    have hne : s.cache ≠ [] := by
      intro hnil
      have h1 := hc.1
      rw [hnil] at h1
      simp at h1
      omega
    have hnone' : dlookup key s.evict_lru.cache = none := evict_lru_none s key hnone
    have hlen' : s.evict_lru.cache.length + 1 = s.cache.length := evict_lru_length s hne
    simp only [CacheService.set]
    rw [if_pos hc]
    rw [length_dinsert_none _ _ _ hnone']
    omega
  · simp only [CacheService.set]
    rw [if_neg hc]
    rcases hd : dlookup key s.cache with _ | w
    · -- key absent, hence the cache is not full
      have hlt : (s.cache.length : Int) < s.max_size := by
        by_contra hge
        exact hc ⟨by omega, by simp [hd]⟩
      rw [length_dinsert_none _ _ _ hd]
      push_cast
      omega
    · rw [length_dinsert_isSome _ _ _ (by simp [hd])]
      exact hlen

theorem get_max_size (s : CacheService α) (now : Int) (key : String) :
    (s.get now key).2.max_size = s.max_size := by
  rcases hd : dlookup key s.cache with _ | item
  · simp [CacheService.get, hd]
  · by_cases he : CacheService.is_expired now item
    · simp [CacheService.get, hd, he]
    · simp [CacheService.get, hd, he]

theorem get_length_le (s : CacheService α) (now : Int) (key : String) :
    (s.get now key).2.cache.length ≤ s.cache.length := by
  rcases hd : dlookup key s.cache with _ | item
  · simp [CacheService.get, hd]
  · by_cases he : CacheService.is_expired now item
    · have h2 := length_derase_isSome key s.cache (by simp [hd])
      simp [CacheService.get, hd, he]
      omega
    · have h2 : (dinsert key { item with last_accessed := now } s.cache).length
          = s.cache.length :=
        length_dinsert_isSome _ _ _ (by simp [hd])
      simp [CacheService.get, hd, he, h2]

theorem delete_max_size (s : CacheService α) (key : String) :
    (s.delete key).2.max_size = s.max_size := by
  by_cases hd : (dlookup key s.cache).isSome
  · simp [CacheService.delete, hd]
  · simp [CacheService.delete, hd]

theorem delete_length_le (s : CacheService α) (key : String) :
    (s.delete key).2.cache.length ≤ s.cache.length := by
  by_cases hd : (dlookup key s.cache).isSome
  · simp only [CacheService.delete, hd, if_true]
    have := length_derase_isSome key s.cache hd
    omega
  · simp [CacheService.delete, hd]

theorem applyOp_max_size (s : CacheService α) (op : Op α) :
    (applyOp s op).max_size = s.max_size := by
  cases op with
  | get now key => exact get_max_size s now key
  | set now key v => exact set_max_size s now key v
  | delete key => exact delete_max_size s key
  | clear => rfl

theorem applyOp_capacity (s : CacheService α) (op : Op α)
    (hpos : 1 ≤ s.max_size) (hlen : (s.cache.length : Int) ≤ s.max_size) :
    ((applyOp s op).cache.length : Int) ≤ s.max_size := by
  cases op with
  | get now key =>
    calc ((s.get now key).2.cache.length : Int) ≤ (s.cache.length : Int) := by
          exact_mod_cast get_length_le s now key
      _ ≤ s.max_size := hlen
  | set now key v => exact set_capacity s now key v hpos hlen
  | delete key =>
    calc ((s.delete key).2.cache.length : Int) ≤ (s.cache.length : Int) := by
          exact_mod_cast delete_length_le s key
      _ ≤ s.max_size := hlen
  | clear => simpa [applyOp, CacheService.clear] using by omega

theorem runOps_max_size (s : CacheService α) (ops : List (Op α)) :
    (runOps s ops).max_size = s.max_size := by
  induction ops generalizing s with
  | nil => rfl
  | cons op ops ih => rw [runOps, ih, applyOp_max_size]

theorem runOps_capacity (s : CacheService α) (ops : List (Op α))
    (hpos : 1 ≤ s.max_size) (hlen : (s.cache.length : Int) ≤ s.max_size) :
    ((runOps s ops).cache.length : Int) ≤ s.max_size := by
  induction ops generalizing s with
  | nil => exact hlen
  | cons op ops ih =>
    rw [runOps]
    have h1 := applyOp_capacity s op hpos hlen
    have h2 := applyOp_max_size s op
    have := ih (applyOp s op) (h2 ▸ hpos) (h2 ▸ h1)
    rw [h2] at this
    exact this

theorem get_size (s : CacheService α) (now : Int) (key : String)
    (h : s.stats.size = s.cache.length) :
    (s.get now key).2.stats.size = (s.get now key).2.cache.length := by
  rcases hd : dlookup key s.cache with _ | item
  · simpa [CacheService.get, hd] using h
  · by_cases he : CacheService.is_expired now item
    · simp [CacheService.get, hd, he]
    · have h2 : (dinsert key { item with last_accessed := now } s.cache).length
          = s.cache.length :=
        length_dinsert_isSome _ _ _ (by simp [hd])
      simp [CacheService.get, hd, he, h2, h]

theorem set_size (s : CacheService α) (now : Int) (key : String) (v : α) :
    (s.set now key v).stats.size = (s.set now key v).cache.length := rfl

theorem delete_size (s : CacheService α) (key : String)
    (h : s.stats.size = s.cache.length) :
    (s.delete key).2.stats.size = (s.delete key).2.cache.length := by
  by_cases hd : (dlookup key s.cache).isSome
  · simp [CacheService.delete, hd]
  · simpa [CacheService.delete, hd] using h

theorem applyOp_size (s : CacheService α) (op : Op α)
    (h : s.stats.size = s.cache.length) :
    (applyOp s op).stats.size = (applyOp s op).cache.length := by
  cases op with
  | get now key => exact get_size s now key h
  | set now key v => exact set_size s now key v
  | delete key => exact delete_size s key h
  | clear => rfl

theorem runOps_size (s : CacheService α) (ops : List (Op α))
    (h : s.stats.size = s.cache.length) :
    (runOps s ops).stats.size = (runOps s ops).cache.length := by
  induction ops generalizing s with
  | nil => exact h
  | cons op ops ih => exact ih (applyOp s op) (applyOp_size s op h)

/-! ## Claim theorems -/

/-- C1: starting from a `CacheService` constructed with a positive `max_size`,
after every sequence of public operations (`set` with any keys, interleaved
with `get`/`delete`/`clear`) the number of entries in `self.cache` is at most
`max_size`: `set` enforces capacity by evicting before inserting, so no
completed operation leaves the cache above capacity. -/
theorem cache_capacity_invariant (α : Type) (ms ttl : Int) (ops : List (Op α))
    (hpos : 1 ≤ ms) :
    ((runOps (CacheService.init α ms ttl) ops).cache.length : Int) ≤ ms := by
  have h := runOps_capacity (CacheService.init α ms ttl) ops
    (by simpa [CacheService.init] using hpos) (by simp [CacheService.init]; omega)
  simpa [CacheService.init] using h

/-- Witness for C1 at a concrete run: capacity 2, three inserts. -/
theorem cache_capacity_invariant_witness :
    (1 : Int) ≤ 2 ∧
      ((runOps (CacheService.init String 2 100)
        [Op.set 1 "a" "x", Op.set 2 "b" "y", Op.set 3 "c" "z"]).cache.length : Int) ≤ 2 :=
  ⟨by decide,
   cache_capacity_invariant String 2 100
     [Op.set 1 "a" "x", Op.set 2 "b" "y", Op.set 3 "c" "z"] (by decide)⟩

/-- C10: after every sequence of completed public operations the maintained
counter `stats["size"]` equals `len(self.cache)`, so `get_stats` always
reports the true entry count. -/
theorem stats_size_matches_cache_length (α : Type) (ms ttl : Int) (ops : List (Op α)) :
    (runOps (CacheService.init α ms ttl) ops).stats.size
      = (runOps (CacheService.init α ms ttl) ops).cache.length :=
  runOps_size (CacheService.init α ms ttl) ops rfl

/-- C6: `get_stats` reports `hit_rate = hits / (hits + misses)` whenever some
request has been counted, and the defined value `0` when `hits + misses = 0`. -/
theorem hit_rate_formula (α : Type) (s : CacheService α) :
    (s.stats.hits + s.stats.misses ≠ 0 →
      s.get_stats.hit_rate
        = (s.stats.hits : Rat) / ((s.stats.hits + s.stats.misses : Nat) : Rat)) ∧
    (s.stats.hits + s.stats.misses = 0 → s.get_stats.hit_rate = 0) := by
  constructor
  · intro h
    simp [CacheService.get_stats, Nat.pos_of_ne_zero h]
  · intro h
    simp [CacheService.get_stats, h]

/-- Witness for C6: both branches at concrete states — one miss recorded
gives rate 0/1 = 0, a fresh cache gives the defined 0. -/
theorem hit_rate_formula_witness :
    ((CacheService.init String 5 10).get 0 "x").2.get_stats.hit_rate = 0 ∧
    (CacheService.init String 5 10).get_stats.hit_rate = 0 := by
  constructor
  · have h :=
      (hit_rate_formula String ((CacheService.init String 5 10).get 0 "x").2).1 (by decide)
    rw [h]
    simp [CacheService.init, CacheService.get, dlookup]
  · exact (hit_rate_formula String (CacheService.init String 5 10)).2 (by decide)

/-- C7: after `clear()` the store is empty — `get_stats` reports size 0 and
`get` on any key (in particular any previously set key) returns `None` — while
the cumulative `hits`, `misses` and `evictions` counters keep their prior
values. -/
theorem clear_preserves_counters (α : Type) (s : CacheService α) :
    s.clear.cache = [] ∧
    s.clear.get_stats.size = 0 ∧
    (∀ (now : Int) (key : String), (s.clear.get now key).1 = none) ∧
    s.clear.stats.hits = s.stats.hits ∧
    s.clear.stats.misses = s.stats.misses ∧
    s.clear.stats.evictions = s.stats.evictions := by
  refine ⟨rfl, rfl, ?_, rfl, rfl, rfl⟩
  intro now key
  simp [CacheService.clear, CacheService.get, dlookup]

/-- C8 (amended): `__init__` performs no validation: construction never
raises, even with negative `max_size` or `ttl_seconds`; it always yields the
state holding the given configuration, an empty cache, and zeroed counters. -/
theorem construction_never_raises (α : Type) (ms ttl : Int) :
    (∀ e : String, CacheService.mkCacheService α ms ttl ≠ Except.error e) ∧
    (CacheService.init α ms ttl).max_size = ms ∧
    (CacheService.init α ms ttl).ttl_seconds = ttl ∧
    (CacheService.init α ms ttl).cache = [] ∧
    (CacheService.init α ms ttl).stats
      = { hits := 0, misses := 0, size := 0, evictions := 0 } :=
  ⟨fun _ h => Except.noConfusion h, rfl, rfl, rfl, rfl⟩

/-- C8 counterexample: constructing with negative `max_size` and
`ttl_seconds` does not raise — the constructor returns a cache service
normally (the claimed fail-fast validation does not exist in the code). -/
theorem construction_negative_counterexample :
    CacheService.mkCacheService String (-1) (-1)
      = Except.ok (CacheService.init String (-1) (-1)) ∧
    (CacheService.init String (-1) (-1)).max_size = -1 :=
  ⟨rfl, rfl⟩

/-- C9: the sweeper's `while True: try ... except Exception` skeleton never
lets a cycle's failure end the loop: for every fallible cycle body and every
schedule of ticks, exactly one cycle is attempted per tick (an `error`
outcome included), and after a failed cycle the loop proceeds to the next
tick with the surviving state. -/
theorem sweeper_survives_cycle_failures :
    (∀ (α : Type) (cycle : Int → CacheService α → Except String (CacheService α))
        (ts : List Int) (s : CacheService α) (n : Nat),
        (runSweeper cycle ts (s, n)).2 = n + ts.length) ∧
    (∀ (α : Type) (cycle : Int → CacheService α → Except String (CacheService α))
        (t : Int) (ts : List Int) (s : CacheService α) (n : Nat) (e : String),
        cycle t s = Except.error e →
        runSweeper cycle (t :: ts) (s, n) = runSweeper cycle ts (s, n + 1)) := by
  constructor
  · intro α cycle ts
    induction ts with
    | nil => intro s n; simp [runSweeper]
    | cons t ts ih =>
      intro s n
      rcases h : cycle t s with e | s'
      · simp only [runSweeper, h]
        rw [ih s (n + 1), List.length_cons]
        omega
      · simp only [runSweeper, h]
        rw [ih s' (n + 1), List.length_cons]
        omega
  · intro α cycle t ts s n e h
    simp [runSweeper, h]

/-- Witness for C9: an always-failing cycle body still gets one attempt per
tick, and a concretely failing first cycle hands control to the next tick. -/
theorem sweeper_survives_cycle_failures_witness :
    (runSweeper (fun _ _ => Except.error "boom") [1, 2, 3]
        (CacheService.init String 3 10, 0)).2 = 0 + [1, 2, 3].length ∧
    runSweeper (fun _ _ => Except.error "boom") [1, 2]
        (CacheService.init String 3 10, 0)
      = runSweeper (fun _ _ => Except.error "boom") [2]
          (CacheService.init String 3 10, 0 + 1) :=
  ⟨sweeper_survives_cycle_failures.1 String (fun _ _ => Except.error "boom")
      [1, 2, 3] (CacheService.init String 3 10) 0,
   sweeper_survives_cycle_failures.2 String (fun _ _ => Except.error "boom")
      1 [2] (CacheService.init String 3 10) 0 "boom" rfl⟩

/-! ## Further operation facts for the LRU and TTL claims -/

theorem evict_lru_nodup (s : CacheService α) (h : (s.cache.map Prod.fst).Nodup) :
    (s.evict_lru.cache.map Prod.fst).Nodup := by
  rcases hc : s.cache with _ | ⟨p0, rest⟩
  · simp [CacheService.evict_lru, hc]
  · rw [hc] at h
    simpa [CacheService.evict_lru, hc] using nodup_keys_derase _ _ h

theorem evict_lru_evictions (s : CacheService α) (hne : s.cache ≠ []) :
    s.evict_lru.stats.evictions = s.stats.evictions + 1 := by
  rcases hc : s.cache with _ | ⟨p0, rest⟩
  · exact absurd hc hne
  · simp [CacheService.evict_lru, hc]

theorem set_cache_full_absent (s : CacheService α) (now : Int) (key : String) (v : α)
    (h1 : s.max_size ≤ (s.cache.length : Int)) (h2 : dlookup key s.cache = none) :
    (s.set now key v).cache
      = dinsert key { value := v, created_at := now, last_accessed := now,
                      expires_at := now + s.ttl_seconds } s.evict_lru.cache ∧
    (s.set now key v).stats.evictions = s.evict_lru.stats.evictions := by
  have hc : s.max_size ≤ (s.cache.length : Int) ∧ (dlookup key s.cache).isNone = true :=
    ⟨h1, by simp [h2]⟩
  constructor
  · simp only [CacheService.set]
    rw [if_pos hc, evict_lru_ttl]
  · simp only [CacheService.set]
    rw [if_pos hc]

theorem set_lookup_self (s : CacheService α) (now : Int) (key : String) (v : α) :
    dlookup key (s.set now key v).cache
      = some { value := v, created_at := now, last_accessed := now,
               expires_at := now + s.ttl_seconds } := by
  by_cases hc : s.max_size ≤ (s.cache.length : Int) ∧ (dlookup key s.cache).isNone = true
  · simp only [CacheService.set]
    rw [if_pos hc, evict_lru_ttl]
    exact dlookup_dinsert_self _ _ _
  · simp only [CacheService.set]
    rw [if_neg hc]
    exact dlookup_dinsert_self _ _ _

theorem set_nodup (s : CacheService α) (now : Int) (key : String) (v : α)
    (h : (s.cache.map Prod.fst).Nodup) :
    (((s.set now key v).cache).map Prod.fst).Nodup := by
  by_cases hc : s.max_size ≤ (s.cache.length : Int) ∧ (dlookup key s.cache).isNone = true
  · simp only [CacheService.set]
    rw [if_pos hc]
    exact nodup_keys_dinsert _ _ _ (evict_lru_nodup s h)
  · simp only [CacheService.set]
    rw [if_neg hc]
    exact nodup_keys_dinsert _ _ _ h

theorem evict_lru_choice (s : CacheService α) (hne : s.cache ≠ []) :
    ∃ ek ee, (ek, ee) ∈ s.cache ∧
      (∀ p ∈ s.cache, ee.last_accessed ≤ p.2.last_accessed) ∧
      s.evict_lru.cache = derase ek s.cache := by
  rcases hc : s.cache with _ | ⟨p0, rest⟩
  · exact absurd hc hne
  · refine ⟨(lruMin p0 rest).1, (lruMin p0 rest).2, ?_, ?_, ?_⟩
    · simpa using lruMin_mem p0 rest
    · intro p hp
      exact lruMin_le p0 rest p hp
    · simp [CacheService.evict_lru, hc]

/-- C3: `get` is the three-way case split — absent key: count a miss and
return `None` leaving the cache untouched; present but past `expires_at`:
remove the entry (it is never returned, even unswept), count a miss, return
`None`; otherwise: stamp `last_accessed = now`, count a hit, return the
stored value. -/
theorem get_three_way_case_split (α : Type) (now : Int) (key : String) (s : CacheService α) :
    (dlookup key s.cache = none →
      (s.get now key).1 = none ∧
      (s.get now key).2.stats.misses = s.stats.misses + 1 ∧
      (s.get now key).2.cache = s.cache ∧
      (s.get now key).2.stats.hits = s.stats.hits) ∧
    (∀ item : Entry α, dlookup key s.cache = some item → now > item.expires_at →
      (s.get now key).1 = none ∧
      (s.get now key).2.stats.misses = s.stats.misses + 1 ∧
      (s.get now key).2.cache = derase key s.cache ∧
      ((s.cache.map Prod.fst).Nodup → dlookup key (s.get now key).2.cache = none) ∧
      (s.get now key).2.stats.hits = s.stats.hits) ∧
    (∀ item : Entry α, dlookup key s.cache = some item → ¬now > item.expires_at →
      (s.get now key).1 = some item.value ∧
      dlookup key (s.get now key).2.cache = some { item with last_accessed := now } ∧
      (s.get now key).2.stats.hits = s.stats.hits + 1 ∧
      (s.get now key).2.stats.misses = s.stats.misses) := by
  refine ⟨?_, ?_, ?_⟩
  · intro h
    simp [CacheService.get, h]
  · intro item h hexp
    have he : CacheService.is_expired now item = true := by
      simp [CacheService.is_expired, hexp]
    refine ⟨?_, ?_, ?_, ?_, ?_⟩
    · simp [CacheService.get, h, he]
    · simp [CacheService.get, h, he]
    · simp [CacheService.get, h, he]
    · intro hnd
      simpa [CacheService.get, h, he] using dlookup_derase_self key s.cache hnd
    · simp [CacheService.get, h, he]
  · intro item h hexp
    have he : CacheService.is_expired now item = false := by
      simp [CacheService.is_expired, hexp]
    refine ⟨?_, ?_, ?_, ?_⟩
    · simp [CacheService.get, h, he]
    · simpa [CacheService.get, h, he] using
        dlookup_dinsert_self key { item with last_accessed := now } s.cache
    · simp [CacheService.get, h, he]
    · simp [CacheService.get, h, he]

/-- Witness for C3: each of the three branches at a concrete state —
an absent key misses, an expired entry yields `None`, a live entry hits. -/
theorem get_three_way_case_split_witness :
    (((CacheService.init String 2 10).set 0 "k" "v").get 1 "zzz").1 = none ∧
    (((CacheService.init String 2 10).set 0 "k" "v").get 11 "k").1 = none ∧
    (((CacheService.init String 2 10).set 0 "k" "v").get 5 "k").1 = some "v" :=
  ⟨((get_three_way_case_split String 1 "zzz"
      ((CacheService.init String 2 10).set 0 "k" "v")).1 (by decide)).1,
   ((get_three_way_case_split String 11 "k"
      ((CacheService.init String 2 10).set 0 "k" "v")).2.1
      ⟨"v", 0, 0, 10⟩ (by decide) (by decide)).1,
   ((get_three_way_case_split String 5 "k"
      ((CacheService.init String 2 10).set 0 "k" "v")).2.2
      ⟨"v", 0, 0, 10⟩ (by decide) (by decide)).1⟩

/-- C5 (amended): the source's `set` takes no per-call TTL argument; it
always stamps `expires_at = now + ttl_seconds` from the store's configured
TTL.  With a nonnegative configured TTL, `set(k, v)` followed immediately by
`get(k)` returns `v`, and a `get(k)` more than `ttl_seconds` after the write
returns absent and removes the entry as a side effect. -/
theorem set_ttl_uses_configured_ttl (α : Type) (now : Int) (key : String) (v : α)
    (s : CacheService α) (httl : 0 ≤ s.ttl_seconds)
    (hnd : (s.cache.map Prod.fst).Nodup) :
    dlookup key (s.set now key v).cache
      = some { value := v, created_at := now, last_accessed := now,
               expires_at := now + s.ttl_seconds } ∧
    ((s.set now key v).get now key).1 = some v ∧
    (∀ later : Int, now + s.ttl_seconds < later →
      ((s.set now key v).get later key).1 = none ∧
      dlookup key ((s.set now key v).get later key).2.cache = none) := by
  have hself := set_lookup_self s now key v
  refine ⟨hself, ?_, ?_⟩
  · have he : CacheService.is_expired now
        { value := v, created_at := now, last_accessed := now,
          expires_at := now + s.ttl_seconds } = false := by
      simp only [CacheService.is_expired, decide_eq_false_iff_not, not_lt]
      omega
    simp [CacheService.get, hself, he]
  · intro later hl
    have he : CacheService.is_expired later
        { value := v, created_at := now, last_accessed := now,
          expires_at := now + s.ttl_seconds } = true := by
      simp only [CacheService.is_expired, decide_eq_true_eq]
      omega
    constructor
    · simp [CacheService.get, hself, he]
    · simpa [CacheService.get, hself, he] using
        dlookup_derase_self key (s.set now key v).cache (set_nodup s now key v hnd)

/-- Witness for C5 at a concrete store (configured TTL 10): an immediate
`get` hits, a `get` 11 ticks later misses. -/
theorem set_ttl_uses_configured_ttl_witness :
    (0 : Int) ≤ (CacheService.init String 5 10).ttl_seconds ∧
    (((CacheService.init String 5 10).set 0 "k" "v").get 0 "k").1 = some "v" ∧
    (((CacheService.init String 5 10).set 0 "k" "v").get 11 "k").1 = none :=
  ⟨by decide,
   (set_ttl_uses_configured_ttl String 0 "k" "v" (CacheService.init String 5 10)
      (by decide) (by decide)).2.1,
   ((set_ttl_uses_configured_ttl String 0 "k" "v" (CacheService.init String 5 10)
      (by decide) (by decide)).2.2 11 (by decide)).1⟩

/-- C5 counterexample: `CacheService.set` accepts no per-call TTL — where the
spec's `set(key, value, ttl)` with `ttl = 5` would stamp `expires_at = 5`,
the source's `set` on a store configured with `ttl_seconds = 3600` stamps
`expires_at = 3600`. -/
theorem set_per_call_ttl_counterexample :
    (dlookup "k" (set_spec (CacheService.init String 10 3600) 0 "k" "v" 5).cache).map
        Entry.expires_at = some 5 ∧
    (dlookup "k" ((CacheService.init String 10 3600).set 0 "k" "v").cache).map
        Entry.expires_at = some 3600 ∧
    (5 : Int) ≠ 3600 := by
  refine ⟨by decide, by decide, by decide⟩

/-- C2: `set` on a full cache with a new key evicts exactly one entry — one
holding a minimal `last_accessed` (LRU by access time) — increments
`evictions` by one, keeps the entry count unchanged, and retains every other
entry plus the new key; in particular, with `max_size = 2`, after
`set(a)`, `set(b)`, `get(a)`, `set(c)` entry `b` is evicted while `a` and
`c` remain. -/
theorem set_evicts_least_recently_used :
    (∀ (α : Type) (now : Int) (key : String) (v : α) (s : CacheService α),
      dlookup key s.cache = none →
      (s.cache.length : Int) = s.max_size →
      1 ≤ s.max_size →
      (s.cache.map Prod.fst).Nodup →
      (s.set now key v).stats.evictions = s.stats.evictions + 1 ∧
      (s.set now key v).cache.length = s.cache.length ∧
      (∃ ek ee, (ek, ee) ∈ s.cache ∧
        (∀ p ∈ s.cache, ee.last_accessed ≤ p.2.last_accessed) ∧
        dlookup ek (s.set now key v).cache = none ∧
        (∀ p ∈ s.cache, p.1 ≠ ek → (dlookup p.1 (s.set now key v).cache).isSome = true)) ∧
      (dlookup key (s.set now key v).cache).isSome = true) ∧
    (dlookup "b" (((((CacheService.init String 2 100).set 1 "a" "va").set 2
          "b" "vb").get 3 "a").2.set 4 "c" "vc").cache = none ∧
      (dlookup "a" (((((CacheService.init String 2 100).set 1 "a" "va").set 2
          "b" "vb").get 3 "a").2.set 4 "c" "vc").cache).isSome = true ∧
      (dlookup "c" (((((CacheService.init String 2 100).set 1 "a" "va").set 2
          "b" "vb").get 3 "a").2.set 4 "c" "vc").cache).isSome = true ∧
      (((((CacheService.init String 2 100).set 1 "a" "va").set 2
          "b" "vb").get 3 "a").2.set 4 "c" "vc").stats.evictions = 1) := by
  constructor
  · intro α now key v s hnone hfull hpos hnd
    have h1 : s.max_size ≤ (s.cache.length : Int) := le_of_eq hfull.symm
    have hne : s.cache ≠ [] := by
      intro hnil
      rw [hnil] at hfull
      simp at hfull
      omega
    obtain ⟨hcache, hev⟩ := set_cache_full_absent s now key v h1 hnone
    have hnone' : dlookup key s.evict_lru.cache = none := evict_lru_none s key hnone
    have hlen' : s.evict_lru.cache.length + 1 = s.cache.length := evict_lru_length s hne
    obtain ⟨ek, ee, hmem, hmin, hec⟩ := evict_lru_choice s hne
    have hekkey : ek ≠ key := by
      intro h
      have := mem_dlookup_isSome ek ee s.cache hmem
      rw [h, hnone] at this
      exact Bool.noConfusion this
    refine ⟨?_, ?_, ⟨ek, ee, hmem, hmin, ?_, ?_⟩, ?_⟩
    · rw [hev, evict_lru_evictions s hne]
    · rw [hcache, length_dinsert_none _ _ _ hnone', hlen']
    · rw [hcache, dlookup_dinsert_ne ek key _ _ hekkey, hec]
      exact dlookup_derase_self ek s.cache hnd
    · intro p hp hpek
      have hpkey : p.1 ≠ key := by
        intro h
        have := mem_dlookup_isSome p.1 p.2 s.cache (by simpa using hp)
        rw [h, hnone] at this
        exact Bool.noConfusion this
      rw [hcache, dlookup_dinsert_ne p.1 key _ _ hpkey, hec,
        dlookup_derase_ne p.1 ek _ hpek]
      exact mem_dlookup_isSome p.1 p.2 s.cache (by simpa using hp)
    · rw [set_lookup_self s now key v]
      rfl
  · refine ⟨by decide, by decide, by decide, by decide⟩

/-- Witness for C2's general part at the concrete pre-state of the spec's
scenario: the fourth `set` bumps `evictions` from 0 to 1. -/
theorem set_evicts_least_recently_used_witness :
    (((((CacheService.init String 2 100).set 1 "a" "va").set 2
        "b" "vb").get 3 "a").2.set 4 "c" "vc").stats.evictions
      = ((((CacheService.init String 2 100).set 1 "a" "va").set 2
        "b" "vb").get 3 "a").2.stats.evictions + 1 :=
  (set_evicts_least_recently_used.1 String 4 "c" "vc"
    ((((CacheService.init String 2 100).set 1 "a" "va").set 2 "b" "vb").get 3 "a").2
    (by decide) (by decide) (by decide) (by decide)).1

/-! ## Fingerprint lemmas -/

theorem append_pipe_inj (a : List Char) :
    ∀ (b r u : List Char), '|' ∉ a → '|' ∉ b →
      a ++ '|' :: r = b ++ '|' :: u → a = b ∧ r = u := by
  induction a with
  | nil =>
    intro b r u _ hb h
    cases b with
    | nil => simpa using h
    | cons c b' =>
      simp only [List.nil_append, List.cons_append, List.cons.injEq] at h
      exact absurd (by rw [h.1]; exact List.mem_cons_self c b') hb
  | cons c a' ih =>
    intro b r u ha hb h
    cases b with
    | nil =>
      simp only [List.cons_append, List.nil_append, List.cons.injEq] at h
      exact absurd (by rw [← h.1]; exact List.mem_cons_self c a') ha
    | cons c' b' =>
      simp only [List.cons_append, List.cons.injEq] at h
      obtain ⟨hc, h2⟩ := h
      have ha' : '|' ∉ a' := fun hx => ha (List.mem_cons_of_mem _ hx)
      have hb' : '|' ∉ b' := fun hx => hb (List.mem_cons_of_mem _ hx)
      obtain ⟨h3, h4⟩ := ih b' r u ha' hb' h2
      exact ⟨by rw [hc, h3], h4⟩

theorem key_data_data (t s l m : String) :
    (key_data t s l m).data
      = t.data ++ '|' :: (s.data ++ '|' :: (l.data ++ '|' :: m.data)) := by
  simp [key_data, String.data_append]

/-- C4 (amended): `generate_cache_key` hashes the `|`-joined fields, and the
join — hence the key — is injective only on tuples whose `text`,
`source_lang` and `target_lang` contain no `|`: for such tuples, distinct
inputs give distinct strings `key_data` fed to the digest.  (Fields that do
contain `|` can collide, see the counterexample.) -/
theorem cache_key_injective_on_pipe_free_inputs
    (t1 s1 l1 m1 t2 s2 l2 m2 : String)
    (h1 : '|' ∉ t1.data) (h2 : '|' ∉ s1.data) (h3 : '|' ∉ l1.data)
    (h4 : '|' ∉ t2.data) (h5 : '|' ∉ s2.data) (h6 : '|' ∉ l2.data)
    (heq : key_data t1 s1 l1 m1 = key_data t2 s2 l2 m2) :
    t1 = t2 ∧ s1 = s2 ∧ l1 = l2 ∧ m1 = m2 := by
  have hd := congrArg String.data heq
  rw [key_data_data, key_data_data] at hd
  obtain ⟨e1, hd1⟩ := append_pipe_inj t1.data t2.data _ _ h1 h4 hd
  obtain ⟨e2, hd2⟩ := append_pipe_inj s1.data s2.data _ _ h2 h5 hd1
  obtain ⟨e3, e4⟩ := append_pipe_inj l1.data l2.data _ _ h3 h6 hd2
  exact ⟨String.ext e1, String.ext e2, String.ext e3, String.ext e4⟩

/-- Witness for C4's amended theorem at concrete pipe-free fields. -/
theorem cache_key_injective_on_pipe_free_inputs_witness :
    ('|' ∉ "hi".data ∧ '|' ∉ "en".data ∧ '|' ∉ "fr".data) ∧
    ("hi" : String) = "hi" ∧ ("en" : String) = "en" ∧
    ("fr" : String) = "fr" ∧ ("auto" : String) = "auto" :=
  ⟨⟨by decide, by decide, by decide⟩,
   cache_key_injective_on_pipe_free_inputs "hi" "en" "fr" "auto" "hi" "en" "fr" "auto"
     (by decide) (by decide) (by decide) (by decide) (by decide) (by decide) rfl⟩

/-- C4 counterexample: the delimiter `|` *can* be produced by field contents:
the distinct tuples `("a|b", "c", "d", "m")` and `("a", "b|c", "d", "m")`
join to the same `key_data` string, hence hash to the same cache key. -/
theorem cache_key_delimiter_collision :
    key_data "a|b" "c" "d" "m" = key_data "a" "b|c" "d" "m" ∧
    (("a|b", "c", "d", "m") : String × String × String × String)
      ≠ ("a", "b|c", "d", "m") := by
  refine ⟨by decide, by decide⟩

end CachePy
